import Mathlib

/-!
Shallow embedding of `parse_sfo` (src/src/utils.py, lines 159-214) and the
helpers it relies on.  The input file is modelled as the list of its bytes
(`List Nat`, each byte `< 256` in real inputs); the open file handle is
modelled by the list of bytes not yet read, so `sfo_file.read(n)` becomes
`(rem.take n, rem.drop n)` (Python's `read` returns at most `n` bytes and
never errors at EOF; a negative size reads to EOF).

Python exceptions are modelled with `Except`:
  * `struct.error` (unpack of a buffer of the wrong exact size)  ↦ `PyErr.truncatedInput`
  * `AssertionError` (the `assert def_table_padding >= 0`)        ↦ `PyErr.malformedLayout`
  * `UnicodeDecodeError` (`bytes.decode("utf-8")`)                ↦ `PyErr.invalidEncoding`
  * `ValueError` (`int("", 16)` on an empty hex string)           ↦ `PyErr.valueError`
Python strings are modelled as lists of Unicode code points.
-/

namespace PspSfo

inductive PyErr where
  | truncatedInput
  | malformedLayout
  | invalidEncoding
  | valueError
deriving DecidableEq, Repr

/-- A decoded SFO value as produced by the value loop: a Python `str`
(code points) or a Python `int`.  The Python value `None` is modelled as
`Option.none` around this type. -/
inductive SfoValue where
  | str (s : List Nat)
  | int (n : Nat)
deriving DecidableEq, Repr

instance {ε α : Type} [DecidableEq ε] [DecidableEq α] : DecidableEq (Except ε α) := fun x y =>
  match x, y with
  | .ok a, .ok b =>
    if h : a = b then .isTrue (by rw [h]) else .isFalse (fun hh => h (Except.ok.inj hh))
  | .error a, .error b =>
    if h : a = b then .isTrue (by rw [h]) else .isFalse (fun hh => h (Except.error.inj hh))
  | .ok _, .error _ => .isFalse (fun hh => Except.noConfusion hh)
  | .error _, .ok _ => .isFalse (fun hh => Except.noConfusion hh)

/-- Code points of a Lean string literal, for readable statements. -/
def strCp (s : String) : List Nat := s.data.map Char.toNat

/-- Little-endian 16-bit value of two bytes (struct format `H`). -/
def le16 (b0 b1 : Nat) : Nat := b0 + 256 * b1

/-- Little-endian 32-bit value of four bytes (struct format `I`). -/
def le32 (b0 b1 b2 b3 : Nat) : Nat :=
  b0 + 256 * b1 + 65536 * b2 + 16777216 * b3

/-- UTF-8 decoding DFA, strict mode, as performed by `bytes.decode("utf-8")`:
rejects stray/missing continuation bytes, overlong encodings, surrogates
(`ED A0..BF`) and code points above `U+10FFFF`.  Arguments: bytes still to
read, number of continuation bytes still required, accumulated code point,
allowed range `[lo, hi]` for the next continuation byte. -/
def utf8DecAux : List Nat → Nat → Nat → Nat → Nat → Option (List Nat)
  | [], 0, _, _, _ => some []
  | [], _ + 1, _, _, _ => none
  | b :: rest, 0, _, _, _ =>
    if b < 0x80 then (utf8DecAux rest 0 0 0 0).map (b :: ·)
    else if 0xC2 ≤ b ∧ b ≤ 0xDF then utf8DecAux rest 1 (b - 0xC0) 0x80 0xBF
    else if b = 0xE0 then utf8DecAux rest 2 0 0xA0 0xBF
    else if 0xE1 ≤ b ∧ b ≤ 0xEC then utf8DecAux rest 2 (b - 0xE0) 0x80 0xBF
    else if b = 0xED then utf8DecAux rest 2 (b - 0xE0) 0x80 0x9F
    else if 0xEE ≤ b ∧ b ≤ 0xEF then utf8DecAux rest 2 (b - 0xE0) 0x80 0xBF
    else if b = 0xF0 then utf8DecAux rest 3 0 0x90 0xBF
    else if 0xF1 ≤ b ∧ b ≤ 0xF3 then utf8DecAux rest 3 (b - 0xF0) 0x80 0xBF
    else if b = 0xF4 then utf8DecAux rest 3 (b - 0xF0) 0x80 0x8F
    else none
  | b :: rest, need + 1, acc, lo, hi =>
    if lo ≤ b ∧ b ≤ hi then
      if need = 0 then (utf8DecAux rest 0 0 0 0).map ((acc * 64 + (b - 0x80)) :: ·)
      else utf8DecAux rest need (acc * 64 + (b - 0x80)) 0x80 0xBF
    else none

/-- `bytes.decode("utf-8")`: `some` code points on success, `none` on
`UnicodeDecodeError`. -/
def utf8Dec (bs : List Nat) : Option (List Nat) := utf8DecAux bs 0 0 0 0

/-- Python `str.rstrip("\x00")`: remove every trailing NUL code point. -/
def rstripNul (s : List Nat) : List Nat :=
  (s.reverse.dropWhile (· = 0)).reverse

/-- Decimal digits (as code points) of `n`, fuel-driven so that it is
structurally recursive; `natToDec` always supplies enough fuel. -/
def natToDecAux : Nat → Nat → List Nat
  | 0, _ => []
  | fuel + 1, n =>
    if n < 10 then [48 + n] else natToDecAux fuel (n / 10) ++ [48 + n % 10]

/-- Python `str(n)` for a natural number: its decimal code points. -/
def natToDec (n : Nat) : List Nat := natToDecAux (n + 1) n

/-- `binascii.hexlify`: each byte becomes two hex digits (big-endian within
the byte).  We track the digit values (0..15) rather than their ASCII
codes, since `int(_, 16)` maps each hex character back to its value. -/
def hexlify (bs : List Nat) : List Nat := bs.flatMap (fun b => [b / 16, b % 16])

/-- `int(s, 16)` on a string of valid hex digits: `ValueError` on the empty
string, otherwise the base-16 value. -/
def intHex (ds : List Nat) : Except PyErr Nat :=
  if ds.isEmpty then .error .valueError
  else .ok (ds.foldl (fun a d => a * 16 + d) 0)

/-- The little-endian unsigned-integer interpretation of a byte run
(`bs[0]` least significant). -/
def leNat (bs : List Nat) : Nat := bs.foldr (fun b acc => b + 256 * acc) 0

/-- `header = struct.unpack("<4s4BIII", header_raw)` (line 166):
`header[0]` 4 raw bytes, `header[1..4]` version bytes, `header[5]` the name
table (key table) offset, `header[6]` the data table offset, `header[7]`
the entry count. -/
structure Header where
  magic : List Nat
  v0 : Nat
  v1 : Nat
  v2 : Nat
  v3 : Nat
  keyTableOffset : Nat
  dataTableOffset : Nat
  entryCount : Nat
deriving DecidableEq

/-- `struct.unpack("<4s4BIII", raw)`: requires exactly 20 bytes, else
`struct.error` (a short `read(20)` near EOF makes the unpack fail). -/
def unpackHeader (raw : List Nat) : Except PyErr Header :=
  if raw.length = 20 then
    .ok { magic := raw.take 4
          v0 := raw.getD 4 0, v1 := raw.getD 5 0
          v2 := raw.getD 6 0, v3 := raw.getD 7 0
          keyTableOffset := le32 (raw.getD 8 0) (raw.getD 9 0) (raw.getD 10 0) (raw.getD 11 0)
          dataTableOffset := le32 (raw.getD 12 0) (raw.getD 13 0) (raw.getD 14 0) (raw.getD 15 0)
          entryCount := le32 (raw.getD 16 0) (raw.getD 17 0) (raw.getD 18 0) (raw.getD 19 0) }
  else .error .truncatedInput

/-- One 16-byte index record, `struct.unpack("<HHIII", def_rec_raw)`
(line 185).  Field names follow the spec's data model; the code accesses
the tuple positionally: `[0] = nameOffset`, `[1] = valueType`,
`[2] = valueLen`, `[3] = valueCapacity`, `[4] = valueOffset`. -/
structure DefRec where
  nameOffset : Nat
  valueType : Nat
  valueLen : Nat
  valueCapacity : Nat
  valueOffset : Nat
deriving DecidableEq

/-- `struct.unpack("<HHIII", raw)`: requires exactly 16 bytes, else
`struct.error`. -/
def unpackDefRec (raw : List Nat) : Except PyErr DefRec :=
  if raw.length = 16 then
    .ok { nameOffset := le16 (raw.getD 0 0) (raw.getD 1 0)
          valueType := le16 (raw.getD 2 0) (raw.getD 3 0)
          valueLen := le32 (raw.getD 4 0) (raw.getD 5 0) (raw.getD 6 0) (raw.getD 7 0)
          valueCapacity := le32 (raw.getD 8 0) (raw.getD 9 0) (raw.getD 10 0) (raw.getD 11 0)
          valueOffset := le32 (raw.getD 12 0) (raw.getD 13 0) (raw.getD 14 0) (raw.getD 15 0) }
  else .error .truncatedInput

/-- The index-table loop (lines 182-186): `n_params` times, `read(16)` and
unpack one record; a short read makes the unpack raise `struct.error`.
Returns the table and the unread remainder of the file. -/
def readDefTable : Nat → List Nat → Except PyErr (List DefRec × List Nat)
  | 0, rem => .ok ([], rem)
  | n + 1, rem => do
    let r ← unpackDefRec (rem.take 16)
    let (t, rm) ← readDefTable n (rem.drop 16)
    .ok (r :: t, rm)

/-- Python `file.read(n)` for a possibly negative `n` (line 192 subtracts
two ints): a negative size reads to EOF, otherwise at most `n` bytes. -/
def readI (rem : List Nat) (n : Int) : List Nat × List Nat :=
  if n < 0 then (rem, []) else (rem.take n.toNat, rem.drop n.toNat)

/-- The name loop (lines 190-196): for each record, the name length is the
next record's `name_offset` minus this one's; for the last record
(`IndexError` branch) it is `name_table_bytes - name_offset`.  The bytes
read are UTF-8 decoded (`UnicodeDecodeError` ↦ `invalidEncoding`) and
right-stripped of NULs.  `read` returns fewer bytes near EOF without
error. -/
def readNames : List DefRec → Int → List Nat → Except PyErr (List (List Nat) × List Nat)
  | [], _, rem => .ok ([], rem)
  | [r], ntb, rem =>
    let (raw, rem') := readI rem (ntb - (r.nameOffset : Int))
    match utf8Dec raw with
    | none => .error .invalidEncoding
    | some s => .ok ([rstripNul s], rem')
  | r :: r' :: rest, ntb, rem =>
    let (raw, rem') := readI rem ((r'.nameOffset : Int) - (r.nameOffset : Int))
    match utf8Dec raw with
    | none => .error .invalidEncoding
    | some s => do
      let (ns, rm) ← readNames (r' :: rest) ntb rem'
      .ok (rstripNul s :: ns, rm)

/-- The type dispatch on one value's raw bytes (lines 203-209):
`0x0204`/`0x0004` decode as UTF-8 and strip trailing NULs; `0x0404` is
`int(binascii.hexlify(value_raw[::-1]), 16)`; any other tag gives Python
`None`. -/
def decodeValue (t : Nat) (raw : List Nat) : Except PyErr (Option SfoValue) :=
  if t = 0x0204 ∨ t = 0x0004 then
    match utf8Dec raw with
    | none => .error .invalidEncoding
    | some s => .ok (some (.str (rstripNul s)))
  else if t = 0x0404 then
    (intHex (hexlify raw.reverse)).map (fun n => some (.int n))
  else .ok none

/-- The value loop (lines 198-211): in index-table order, read
`v_total = def_table[e][3]` bytes — the record's `value_capacity` field —
and dispatch on `v_type = def_table[e][1]`. -/
def readValues : List DefRec → List Nat → Except PyErr (List (Option SfoValue) × List Nat)
  | [], rem => .ok ([], rem)
  | r :: rest, rem => do
    let v ← decodeValue r.valueType (rem.take r.valueCapacity)
    let (vs, rm) ← readValues rest (rem.drop r.valueCapacity)
    .ok (v :: vs, rm)

/-- The name loop followed by the value loop (lines 190-211), starting
from the file remainder `rem` positioned at the name blob. -/
def namesThenValues (dt : List DefRec) (ntb : Int) (rem : List Nat) :
    Except PyErr (List (List Nat) × List (Option SfoValue)) := do
  let (names, rem₃) ← readNames dt ntb rem
  let (values, _) ← readValues dt rem₃
  .ok (names, values)

/-- Lines 172-211 after the header has been unpacked: layout arithmetic,
the padding assert (`AssertionError` ↦ `malformedLayout`), the index-table
loop, the `read(def_table_padding)` skip, then the name and value loops.
`rest` is the file remainder after the 20 header bytes. -/
def parseBody (keyOff dataOff nParams : Nat) (rest : List Nat) :
    Except PyErr (List (List Nat) × List (Option SfoValue)) :=
  let defTableBytes := 16 * nParams
  let nameTableBytes : Int := (dataOff : Int) - (keyOff : Int)
  let defTablePadding : Int := (keyOff : Int) - 20 - (defTableBytes : Int)
  if defTablePadding < 0 then .error .malformedLayout
  else do
    let (defTable, rem₁) ← readDefTable nParams rest
    namesThenValues defTable nameTableBytes (rem₁.drop defTablePadding.toNat)

/-- `".".join([str(h) for h in header[1:5]])` (line 170): the four version
bytes rendered in decimal and joined with dots. -/
def verStr (hd : Header) : List Nat :=
  List.intercalate [46] [natToDec hd.v0, natToDec hd.v1, natToDec hd.v2, natToDec hd.v3]

/-- `bytes.decode("utf-8")` as a fallible step (line 169 applies it to the
magic bytes): `UnicodeDecodeError` ↦ `invalidEncoding`. -/
def decodeUtf8E (bs : List Nat) : Except PyErr (List Nat) :=
  match utf8Dec bs with
  | none => .error .invalidEncoding
  | some s => .ok s

/-- `parse_sfo` up to the `dict(zip(param_names, param_values))` of line
213: the association list pairing names with values, in insertion order.
`param_names` starts as the two synthetic names and `param_values` as the
decoded magic and the version bytes joined with `"."` (lines 167-170). -/
def parse_sfo_data (buf : List Nat) :
    Except PyErr (List (List Nat × Option SfoValue)) := do
  let header ← unpackHeader (buf.take 20)
  let sig ← decodeUtf8E header.magic
  let body ← parseBody header.keyTableOffset header.dataTableOffset header.entryCount
    (buf.drop 20)
  .ok (List.zip (strCp "SFO File Signature" :: strCp "SFO File Version" :: body.1)
        (some (.str sig) :: some (.str (verStr header)) :: body.2))

/-- Python `dict(zip(names, values)).get(k)`: with duplicate keys the last
value wins; a missing key gives `None`, indistinguishable from a stored
`None`. -/
def dictGet (pairs : List (List Nat × Option SfoValue)) (k : List Nat) :
    Option SfoValue :=
  match pairs.reverse.find? (fun q => q.1 == k) with
  | some q => q.2
  | none => none

/-- `parse_sfo(sfo_path, param)` (lines 159-214): the whole parse followed
by `sfo_data.get(param)`. -/
def parse_sfo (buf : List Nat) (param : List Nat) :
    Except PyErr (Option SfoValue) :=
  (parse_sfo_data buf).map (fun pairs => dictGet pairs param)

/-- A synthetic well-formed 83-byte buffer: magic `"\x00PSF"`, version
bytes `1,1,0,0`, `key_table_offset = 52`, `data_table_offset = 67`,
`entry_count = 2`; two string (`0x0204`) entries named `"TITLE"` and
`"CATEGORY"` with NUL-terminated values `"GAME TITLE"` and `"UCES"`. -/
def sfoBuf2 : List Nat :=
  [0, 80, 83, 70,
   1, 1, 0, 0,
   52, 0, 0, 0,
   67, 0, 0, 0,
   2, 0, 0, 0,
   -- record 0: name_offset 0, type 0x0204, len 11, capacity 11, offset 0
   0, 0, 4, 2, 11, 0, 0, 0, 11, 0, 0, 0, 0, 0, 0, 0,
   -- record 1: name_offset 6, type 0x0204, len 5, capacity 5, offset 16
   6, 0, 4, 2, 5, 0, 0, 0, 5, 0, 0, 0, 16, 0, 0, 0,
   -- name blob: "TITLE\x00" ++ "CATEGORY\x00"
   84, 73, 84, 76, 69, 0,
   67, 65, 84, 69, 71, 79, 82, 89, 0,
   -- value blob: "GAME TITLE\x00" ++ "UCES\x00"
   71, 65, 77, 69, 32, 84, 73, 84, 76, 69, 0,
   85, 67, 69, 83, 0]

lemma leNat_cons (b : Nat) (t : List Nat) : leNat (b :: t) = b + 256 * leNat t := rfl

/-- The hex-string detour of lines 206-207 computes the little-endian
value: folding base-16 over the hex digits of the reversed byte run equals
the base-256 little-endian interpretation of the run. -/
lemma hexFold (bs : List Nat) :
    (hexlify bs.reverse).foldl (fun a d => a * 16 + d) 0 = leNat bs := by
  induction bs with
  | nil => rfl
  | cons b t ih =>
    rw [List.reverse_cons]
    unfold hexlify at *
    rw [List.flatMap_append, List.foldl_append, ih]
    simp only [List.flatMap_cons, List.flatMap_nil, List.append_nil, List.foldl_cons,
      List.foldl_nil]
    have hb := Nat.div_add_mod b 16
    rw [leNat_cons]
    omega

lemma intHex_hexlify_reverse (bs : List Nat) (h : bs ≠ []) :
    intHex (hexlify bs.reverse) = .ok (leNat bs) := by
  have hrev : bs.reverse ≠ [] := by simpa using h
  have hne : (hexlify bs.reverse).isEmpty = false := by
    cases hr : bs.reverse with
    | nil => exact absurd hr hrev
    | cons x xs => simp [hexlify]
  unfold intHex
  rw [hne]
  simp only [Bool.false_eq_true, if_false]
  rw [hexFold]

lemma decodeValue_unknown (t : Nat) (raw : List Nat)
    (h1 : ¬(t = 0x0204 ∨ t = 0x0004)) (h2 : t ≠ 0x0404) :
    decodeValue t raw = .ok none := by
  unfold decodeValue
  rw [if_neg h1, if_neg h2]

lemma decodeValue_int (raw : List Nat) (h : raw ≠ []) :
    decodeValue 0x0404 raw = .ok (some (.int (leNat raw))) := by
  unfold decodeValue
  rw [if_neg (by decide), if_pos rfl, intHex_hexlify_reverse raw h]
  rfl

/-- Claim C7: a buffer shorter than the 20-byte header makes `parse_sfo`
fail with `TruncatedInput` (the `struct.unpack` of line 166 raises), for
any queried parameter. -/
theorem short_buffer_truncated (buf param : List Nat) (h : buf.length < 20) :
    parse_sfo buf param = .error .truncatedInput := by
  have h20 : ¬((buf.take 20).length = 20) := by
    rw [List.length_take]
    omega
  unfold parse_sfo parse_sfo_data unpackHeader
  rw [if_neg h20]
  rfl

theorem short_buffer_truncated_witness :
    ([1, 2, 3] : List Nat).length < 20 ∧
      parse_sfo [1, 2, 3] [] = .error .truncatedInput :=
  ⟨by decide, short_buffer_truncated [1, 2, 3] [] (by decide)⟩

/-- Claim C4: a value tagged `0x0404` decodes — whenever the decode
succeeds — to the unsigned little-endian interpretation (`leNat`) of the
full byte run the index record specifies for it, however long; the loop
then proceeds on the remainder past that run. -/
theorem int_value_little_endian (r : DefRec) (rest : List DefRec) (rem : List Nat)
    (ht : r.valueType = 0x0404) (hne : rem.take r.valueCapacity ≠ []) :
    readValues (r :: rest) rem =
      Except.map
        (fun p => (some (SfoValue.int (leNat (rem.take r.valueCapacity))) :: p.1, p.2))
        (readValues rest (rem.drop r.valueCapacity)) := by
  simp only [readValues]
  rw [ht, decodeValue_int _ hne]
  cases readValues rest (rem.drop r.valueCapacity) <;> rfl

theorem int_value_little_endian_witness :
    ((DefRec.mk 0 0x0404 4 4 0).valueType = 0x0404 ∧
      ([1, 0, 0, 0] : List Nat).take 4 ≠ [] ∧
      readValues [⟨0, 0x0404, 4, 4, 0⟩] [1, 0, 0, 0] =
        Except.map
          (fun p => (some (SfoValue.int (leNat (([1, 0, 0, 0] : List Nat).take 4))) :: p.1, p.2))
          (readValues [] (([1, 0, 0, 0] : List Nat).drop 4))) ∧
    readValues [⟨0, 0x0404, 4, 4, 0⟩] [1, 0, 0, 0] = .ok ([some (.int 1)], []) :=
  ⟨⟨rfl, by decide, int_value_little_endian ⟨0, 0x0404, 4, 4, 0⟩ [] [1, 0, 0, 0] rfl (by decide)⟩,
    by decide⟩

/-- Claim C5: an index entry whose `value_type` is none of `0x0204`,
`0x0004`, `0x0404` never makes the value loop fail: it contributes the
absent value (`None`) and the loop continues on the remaining entries
exactly as it would otherwise, with the cursor advanced past the entry's
byte run. -/
theorem unknown_type_skipped (r : DefRec) (rest : List DefRec) (rem : List Nat)
    (h1 : ¬(r.valueType = 0x0204 ∨ r.valueType = 0x0004)) (h2 : r.valueType ≠ 0x0404) :
    readValues (r :: rest) rem =
      Except.map (fun p => (none :: p.1, p.2)) (readValues rest (rem.drop r.valueCapacity)) := by
  simp only [readValues]
  rw [decodeValue_unknown r.valueType _ h1 h2]
  cases readValues rest (rem.drop r.valueCapacity) <;> rfl

theorem unknown_type_skipped_witness :
    (¬((0xFFFF : Nat) = 0x0204 ∨ (0xFFFF : Nat) = 0x0004) ∧ (0xFFFF : Nat) ≠ 0x0404 ∧
      readValues [⟨0, 0xFFFF, 4, 4, 0⟩, ⟨0, 0x0204, 2, 2, 0⟩] [9, 9, 9, 9, 65, 66] =
        Except.map (fun p => (none :: p.1, p.2))
          (readValues [⟨0, 0x0204, 2, 2, 0⟩] (([9, 9, 9, 9, 65, 66] : List Nat).drop 4))) ∧
    readValues [⟨0, 0xFFFF, 4, 4, 0⟩, ⟨0, 0x0204, 2, 2, 0⟩] [9, 9, 9, 9, 65, 66] =
      .ok ([none, some (.str [65, 66])], []) :=
  ⟨⟨by decide, by decide, unknown_type_skipped ⟨0, 0xFFFF, 4, 4, 0⟩ _ _ (by decide) (by decide)⟩,
    by decide⟩

/-- The value loop as claim C1 and §4.4 word it: consume `value_len`
(`def_table[e][2]`, the u32 "actual byte length" field) bytes per entry.
Kept only for comparison with `readValues`, which follows the source and
consumes `def_table[e][3]` (`value_capacity`) bytes. -/
def readValues_spec : List DefRec → List Nat → Except PyErr (List (Option SfoValue) × List Nat)
  | [], rem => .ok ([], rem)
  | r :: rest, rem => do
    let v ← decodeValue r.valueType (rem.take r.valueLen)
    let (vs, rm) ← readValues_spec rest (rem.drop r.valueLen)
    .ok (v :: vs, rm)

/-- Claim C1 as stated is false: on a record with `value_len = 4` and
`value_capacity = 8` over the bytes `"ABCDEFGH"`, the code's value loop
consumes all 8 capacity bytes and yields `"ABCDEFGH"`, whereas consuming
`value_len` bytes (the claim's reading, `readValues_spec`) would yield
`"ABCD"` and leave the cursor 4 bytes earlier. -/
theorem readValues_valueLen_counterexample :
    readValues [⟨0, 0x0204, 4, 8, 0⟩] (strCp "ABCDEFGH") =
      .ok ([some (.str (strCp "ABCDEFGH"))], []) ∧
    readValues_spec [⟨0, 0x0204, 4, 8, 0⟩] (strCp "ABCDEFGH") =
      .ok ([some (.str (strCp "ABCD"))], strCp "EFGH") ∧
    strCp "ABCDEFGH" ≠ strCp "ABCD" := by decide

/-- Total number of bytes the value loop consumes: the sum of the
records' `value_capacity` fields. -/
def capSum (recs : List DefRec) : Nat := (recs.map (fun r => r.valueCapacity)).sum

/-- Claim C1, amended: for every successful run of the value loop, values
are read strictly in index-table order, sequentially from the cursor, and
entry `i` consumes exactly `value_capacity[i]` bytes (`def_table[e][3]`,
the reserved/padded length) regardless of its `value_type` — entry `i`'s
bytes are the run of length `value_capacity[i]` that starts after the
capacities of entries `0..i-1`, and the final cursor has advanced by their
total. -/
theorem readValues_consumes_capacity (recs : List DefRec) (rem : List Nat)
    (vs : List (Option SfoValue)) (rm : List Nat)
    (h : readValues recs rem = .ok (vs, rm)) :
    rm = rem.drop (capSum recs) ∧ vs.length = recs.length ∧
    ∀ i, i < recs.length →
      decodeValue ((recs.getD i ⟨0, 0, 0, 0, 0⟩).valueType)
        ((rem.drop (capSum (recs.take i))).take ((recs.getD i ⟨0, 0, 0, 0, 0⟩).valueCapacity)) =
      .ok (vs.getD i none) := by
  induction recs generalizing rem vs rm with
  | nil =>
    simp only [readValues] at h
    obtain ⟨h1, h2⟩ := Prod.mk.inj (Except.ok.inj h)
    subst h1
    subst h2
    refine ⟨by simp [capSum], by simp, ?_⟩
    intro i hi
    exact absurd hi (by simp)
  | cons r t ih =>
    simp only [readValues] at h
    cases hv : decodeValue r.valueType (rem.take r.valueCapacity) with
    | error e => rw [hv] at h; exact Except.noConfusion h
    | ok v =>
      rw [hv] at h
      cases hrest : readValues t (rem.drop r.valueCapacity) with
      | error e => rw [hrest] at h; exact Except.noConfusion h
      | ok p =>
        obtain ⟨vs', rm'⟩ := p
        rw [hrest] at h
        obtain ⟨h1, h2⟩ := Prod.mk.inj (Except.ok.inj h)
        subst h1
        subst h2
        obtain ⟨hdrop, hlen, hidx⟩ := ih _ _ _ hrest
        refine ⟨?_, by simp [hlen], ?_⟩
        · rw [hdrop, List.drop_drop]
          congr 1
        · intro i hi
          cases i with
          | zero => simpa [capSum] using hv
          | succ j =>
            have hj : j < t.length := by simpa using hi
            have hstep := hidx j hj
            have hc : capSum ((r :: t).take (j + 1)) = r.valueCapacity + capSum (t.take j) := by
              simp [capSum]
            rw [List.getD_cons_succ, List.getD_cons_succ, hc, ← List.drop_drop]
            exact hstep

theorem readValues_consumes_capacity_witness :
    readValues [⟨0, 0x0204, 4, 8, 0⟩] (strCp "ABCDEFGH") =
      .ok ([some (.str (strCp "ABCDEFGH"))], []) ∧
    ([] : List Nat) = (strCp "ABCDEFGH").drop (capSum [⟨0, 0x0204, 4, 8, 0⟩]) ∧
    decodeValue ((([⟨0, 0x0204, 4, 8, 0⟩] : List DefRec).getD 0 ⟨0, 0, 0, 0, 0⟩).valueType)
      (((strCp "ABCDEFGH").drop (capSum (([⟨0, 0x0204, 4, 8, 0⟩] : List DefRec).take 0))).take
        ((([⟨0, 0x0204, 4, 8, 0⟩] : List DefRec).getD 0 ⟨0, 0, 0, 0, 0⟩).valueCapacity)) =
      .ok ([some (SfoValue.str (strCp "ABCDEFGH"))].getD 0 none) := by
  have h : readValues [⟨0, 0x0204, 4, 8, 0⟩] (strCp "ABCDEFGH") =
      .ok ([some (.str (strCp "ABCDEFGH"))], []) := by decide
  have c := readValues_consumes_capacity _ _ _ _ h
  exact ⟨h, c.1, c.2.2 0 (by decide)⟩

/-- Claim C2 as stated is false: on the claimed synthetic buffer the
mapping does contain `"TITLE" ↦ "GAME TITLE"` and `"CATEGORY" ↦ "UCES"`
(trailing NULs stripped), but not *exactly* those two pairs — it has four
entries, because lines 167-170 prepend the two synthetic header entries. -/
theorem sfoBuf2_not_two_pairs :
    (parse_sfo_data sfoBuf2).map List.length = .ok 4 ∧
    parse_sfo sfoBuf2 (strCp "TITLE") = .ok (some (.str (strCp "GAME TITLE"))) ∧
    parse_sfo sfoBuf2 (strCp "CATEGORY") = .ok (some (.str (strCp "UCES"))) ∧
    parse_sfo sfoBuf2 (strCp "SFO File Signature") ≠ .ok none := by decide

/-- Claim C2, amended: on the synthetic two-entry buffer, `decode` returns
exactly the two claimed pairs, trailing-NUL-stripped, *after* the two
synthetic header entries (signature and version). -/
theorem sfoBuf2_decode_pairs :
    parse_sfo_data sfoBuf2 =
      .ok [(strCp "SFO File Signature", some (.str (strCp "\x00PSF"))),
           (strCp "SFO File Version", some (.str (strCp "1.1.0.0"))),
           (strCp "TITLE", some (.str (strCp "GAME TITLE"))),
           (strCp "CATEGORY", some (.str (strCp "UCES")))] := by decide

/-- A 41-byte buffer whose single name has computed length
`data_table_offset - key_table_offset = 44 - 36 = 8` but only 5 bytes
(`"TITLE"` without its NUL) remain after the index table: the name blob is
truncated mid-name. -/
def bufC3 : List Nat :=
  [0, 80, 83, 70,
   1, 1, 0, 0,
   36, 0, 0, 0,
   44, 0, 0, 0,
   1, 0, 0, 0,
   -- record 0: name_offset 0, type 0x0204, len 4, capacity 4, offset 0
   0, 0, 4, 2, 4, 0, 0, 0, 4, 0, 0, 0, 0, 0, 0, 0,
   -- name blob, cut short: "TITLE" (5 of the 8 computed bytes)
   84, 73, 84, 76, 69]

/-- Claim C3 as stated is false: on `bufC3` the computed name length (8)
exceeds the 5 bytes remaining in the buffer, yet `decode` succeeds — the
name is silently truncated to `"TITLE"` and the (empty) value decodes to
`""` — instead of failing with `TruncatedInput`. -/
theorem name_truncation_silent :
    (bufC3.drop 36).length = 5 ∧ (5 : Nat) < 8 ∧
    readNames [⟨0, 0x0204, 4, 4, 0⟩] ((44 : Int) - 36) (bufC3.drop 36) =
      .ok ([strCp "TITLE"], []) ∧
    parse_sfo_data bufC3 =
      .ok [(strCp "SFO File Signature", some (.str (strCp "\x00PSF"))),
           (strCp "SFO File Version", some (.str (strCp "1.1.0.0"))),
           (strCp "TITLE", some (.str []))] := by decide

/-- Claim C3, amended: a name whose computed byte length exceeds the bytes
remaining is silently truncated to the available bytes — the name loop can
never fail with `TruncatedInput`; its only possible failure is
`InvalidEncoding` from UTF-8 decoding. -/
theorem readNames_no_truncation (dt : List DefRec) (ntb : Int) (rem : List Nat) (e : PyErr)
    (h : readNames dt ntb rem = .error e) : e = .invalidEncoding := by
  induction dt generalizing rem e with
  | nil =>
    simp only [readNames] at h
    exact Except.noConfusion h
  | cons r t ih =>
    cases t with
    | nil =>
      simp only [readNames] at h
      cases hri : readI rem (ntb - (r.nameOffset : Int)) with
      | mk raw rem' =>
        rw [hri] at h
        cases hu : utf8Dec raw with
        | none => rw [hu] at h; exact (Except.error.inj h).symm
        | some s => rw [hu] at h; exact Except.noConfusion h
    | cons r' t' =>
      simp only [readNames] at h
      cases hri : readI rem ((r'.nameOffset : Int) - (r.nameOffset : Int)) with
      | mk raw rem' =>
        rw [hri] at h
        cases hu : utf8Dec raw with
        | none => rw [hu] at h; exact (Except.error.inj h).symm
        | some s =>
          rw [hu] at h
          cases hrec : readNames (r' :: t') ntb rem' with
          | error e' =>
            rw [hrec] at h
            exact (Except.error.inj h) ▸ ih rem' e' hrec
          | ok p =>
            obtain ⟨ns, rm⟩ := p
            rw [hrec] at h
            exact Except.noConfusion h

theorem readNames_no_truncation_witness :
    readNames [⟨0, 0, 0, 0, 0⟩] 1 [255] = .error .invalidEncoding ∧
      PyErr.invalidEncoding = .invalidEncoding :=
  ⟨by decide, readNames_no_truncation [⟨0, 0, 0, 0, 0⟩] 1 [255] .invalidEncoding (by decide)⟩

lemma ok_bind {α β : Type} (a : α) (f : α → Except PyErr β) :
    ((Except.ok a : Except PyErr α) >>= f) = f a := rfl

lemma decodeUtf8E_ok (bs s : List Nat) (h : utf8Dec bs = some s) :
    decodeUtf8E bs = .ok s := by
  unfold decodeUtf8E
  rw [h]

/-- Once the header is unpacked and its magic decodes, `parse_sfo_data` is
the body of the parse with the two synthetic entries prepended. -/
lemma parse_sfo_data_cons (buf : List Nat) (hd : Header) (s : List Nat)
    (h1 : unpackHeader (buf.take 20) = .ok hd) (h2 : utf8Dec hd.magic = some s) :
    parse_sfo_data buf =
      Except.map (fun body =>
          List.zip (strCp "SFO File Signature" :: strCp "SFO File Version" :: body.1)
            (some (.str s) :: some (.str (verStr hd)) :: body.2))
        (parseBody hd.keyTableOffset hd.dataTableOffset hd.entryCount (buf.drop 20)) := by
  unfold parse_sfo_data
  rw [h1]
  simp only [ok_bind]
  rw [decodeUtf8E_ok hd.magic s h2]
  simp only [ok_bind]
  cases hb : parseBody hd.keyTableOffset hd.dataTableOffset hd.entryCount (buf.drop 20) <;> rfl

/-- A successful index-table loop returns one record per iteration and
leaves the cursor exactly `16 × n` bytes further. -/
lemma readDefTable_ok (n : Nat) (rem : List Nat) (dt : List DefRec) (rm : List Nat)
    (h : readDefTable n rem = .ok (dt, rm)) :
    dt.length = n ∧ rm = rem.drop (16 * n) := by
  induction n generalizing rem dt rm with
  | zero =>
    simp only [readDefTable] at h
    obtain ⟨h1, h2⟩ := Prod.mk.inj (Except.ok.inj h)
    subst h1
    subst h2
    exact ⟨rfl, by simp⟩
  | succ n ih =>
    simp only [readDefTable] at h
    cases hu : unpackDefRec (rem.take 16) with
    | error e => rw [hu] at h; exact Except.noConfusion h
    | ok r =>
      rw [hu] at h
      cases hrec : readDefTable n (rem.drop 16) with
      | error e => rw [hrec] at h; exact Except.noConfusion h
      | ok p =>
        obtain ⟨t, rm'⟩ := p
        rw [hrec] at h
        obtain ⟨h1, h2⟩ := Prod.mk.inj (Except.ok.inj h)
        subst h1
        subst h2
        obtain ⟨hl, hr⟩ := ih _ _ _ hrec
        refine ⟨by simp [hl], ?_⟩
        rw [hr, List.drop_drop, show 16 + 16 * n = 16 * (n + 1) by ring]

/-- A 20-byte buffer whose header has `key_table_offset = 0` and
`entry_count = 0` (so the padding quantity is `-20 < 0`) but whose magic
bytes `FF FF FF FF` are not valid UTF-8. -/
def bufC6 : List Nat :=
  [255, 255, 255, 255, 1, 0, 0, 0, 0, 0, 0, 0, 0, 0, 0, 0, 0, 0, 0, 0]

/-- Claim C6 as stated is false: `bufC6`'s header satisfies
`key_table_offset - 20 - 16×entry_count = -20 < 0`, yet `decode` fails
with `InvalidEncoding`, not `MalformedLayout` — line 169 decodes the magic
bytes as UTF-8 before line 180's padding assert runs. -/
theorem padding_check_preempted :
    unpackHeader (bufC6.take 20) = .ok ⟨[255, 255, 255, 255], 1, 0, 0, 0, 0, 0, 0⟩ ∧
    ((0 : Int) - 20 - ((16 * 0 : Nat) : Int) < 0) ∧
    parse_sfo_data bufC6 = .error .invalidEncoding ∧
    PyErr.invalidEncoding ≠ .malformedLayout := by decide

/-- Claim C6, amended: provided the magic bytes decode as UTF-8 (checked
first, at line 169), a header with `key_table_offset - 20 - 16×entry_count
< 0` makes `decode` fail with `MalformedLayout`; and when the quantity is
non-negative (and the index table reads successfully), exactly that many
padding bytes are skipped: the name-then-value stage runs on the buffer
from offset `20 + 16×entry_count + padding` onward. -/
theorem padding_malformed_or_skip :
    (∀ buf hd s, unpackHeader (buf.take 20) = .ok hd → utf8Dec hd.magic = some s →
      (hd.keyTableOffset : Int) - 20 - ((16 * hd.entryCount : Nat) : Int) < 0 →
      parse_sfo_data buf = .error .malformedLayout) ∧
    (∀ buf hd s dt rem₁,
      unpackHeader (buf.take 20) = .ok hd → utf8Dec hd.magic = some s →
      0 ≤ (hd.keyTableOffset : Int) - 20 - ((16 * hd.entryCount : Nat) : Int) →
      readDefTable hd.entryCount (buf.drop 20) = .ok (dt, rem₁) →
      parse_sfo_data buf =
        Except.map (fun body =>
            List.zip (strCp "SFO File Signature" :: strCp "SFO File Version" :: body.1)
              (some (.str s) :: some (.str (verStr hd)) :: body.2))
          (namesThenValues dt ((hd.dataTableOffset : Int) - (hd.keyTableOffset : Int))
            (buf.drop (20 + 16 * hd.entryCount +
              ((hd.keyTableOffset : Int) - 20 - ((16 * hd.entryCount : Nat) : Int)).toNat)))) := by
  constructor
  · intro buf hd s h1 h2 hneg
    rw [parse_sfo_data_cons buf hd s h1 h2]
    simp only [parseBody]
    rw [if_pos hneg]
    rfl
  · intro buf hd s dt rem₁ h1 h2 hpos hdt
    rw [parse_sfo_data_cons buf hd s h1 h2]
    obtain ⟨hlen, hrm⟩ := readDefTable_ok _ _ _ _ hdt
    simp only [parseBody]
    rw [if_neg (not_lt.mpr hpos), hdt]
    simp only [ok_bind]
    have hA : rem₁.drop ((hd.keyTableOffset : Int) - 20 - ((16 * hd.entryCount : Nat) : Int)).toNat =
        buf.drop (20 + 16 * hd.entryCount +
          ((hd.keyTableOffset : Int) - 20 - ((16 * hd.entryCount : Nat) : Int)).toNat) := by
      rw [hrm, List.drop_drop, List.drop_drop]
      congr 1
      omega
    rw [hA]

/-- `bufC6` with valid-UTF-8 magic (`"\x00PSF"`): padding quantity is
still `-20 < 0`. -/
def bufC6w : List Nat :=
  [0, 80, 83, 70, 1, 0, 0, 0, 0, 0, 0, 0, 0, 0, 0, 0, 0, 0, 0, 0]

/-- `sfoBuf2`'s content laid out with 4 padding bytes (`9, 9, 9, 9`)
between the index table and the name blob: `key_table_offset = 56`,
`data_table_offset = 71`, padding quantity `56 - 20 - 32 = 4`. -/
def bufC6pad : List Nat :=
  [0, 80, 83, 70,
   1, 1, 0, 0,
   56, 0, 0, 0,
   71, 0, 0, 0,
   2, 0, 0, 0,
   0, 0, 4, 2, 11, 0, 0, 0, 11, 0, 0, 0, 0, 0, 0, 0,
   6, 0, 4, 2, 5, 0, 0, 0, 5, 0, 0, 0, 16, 0, 0, 0,
   9, 9, 9, 9,
   84, 73, 84, 76, 69, 0,
   67, 65, 84, 69, 71, 79, 82, 89, 0,
   71, 65, 77, 69, 32, 84, 73, 84, 76, 69, 0,
   85, 67, 69, 83, 0]

theorem padding_malformed_or_skip_witness :
    parse_sfo_data bufC6w = .error .malformedLayout ∧
    parse_sfo_data bufC6pad =
      Except.map (fun body =>
          List.zip (strCp "SFO File Signature" :: strCp "SFO File Version" :: body.1)
            (some (.str (strCp "\x00PSF")) ::
              some (.str (verStr ⟨[0, 80, 83, 70], 1, 1, 0, 0, 56, 71, 2⟩)) :: body.2))
        (namesThenValues [⟨0, 0x0204, 11, 11, 0⟩, ⟨6, 0x0204, 5, 5, 16⟩]
          (((71 : Nat) : Int) - ((56 : Nat) : Int))
          (bufC6pad.drop 56)) := by
  constructor
  · exact padding_malformed_or_skip.1 bufC6w ⟨[0, 80, 83, 70], 1, 0, 0, 0, 0, 0, 0⟩
      (strCp "\x00PSF") (by decide) (by decide) (by decide)
  · have := padding_malformed_or_skip.2 bufC6pad ⟨[0, 80, 83, 70], 1, 1, 0, 0, 56, 71, 2⟩
      (strCp "\x00PSF") [⟨0, 0x0204, 11, 11, 0⟩, ⟨6, 0x0204, 5, 5, 16⟩] (bufC6pad.drop 52)
      (by decide) (by decide) (by decide) (by decide)
    exact this

lemma parse_sfo_data_short (buf : List Nat) (h : buf.length < 20) :
    parse_sfo_data buf = .error .truncatedInput := by
  have h20 : ¬((buf.take 20).length = 20) := by
    rw [List.length_take]
    omega
  unfold parse_sfo_data unpackHeader
  rw [if_neg h20]
  rfl

/-- Unpacking a header whose first 4 bytes are `m` and remaining 16 bytes
are `T`. -/
lemma unpackHeader_split (m T : List Nat) (hm : m.length = 4) (hT : T.length = 16) :
    unpackHeader (m ++ T) =
      .ok ⟨m, T.getD 0 0, T.getD 1 0, T.getD 2 0, T.getD 3 0,
        le32 (T.getD 4 0) (T.getD 5 0) (T.getD 6 0) (T.getD 7 0),
        le32 (T.getD 8 0) (T.getD 9 0) (T.getD 10 0) (T.getD 11 0),
        le32 (T.getD 12 0) (T.getD 13 0) (T.getD 14 0) (T.getD 15 0)⟩ := by
  have hlen : (m ++ T).length = 20 := by simp [hm, hT]
  have htake : (m ++ T).take 4 = m := by
    rw [← hm]
    exact List.take_left m T
  have g : ∀ i j : Nat, i = 4 + j → (m ++ T).getD i 0 = T.getD j 0 := by
    intro i j hij
    rw [List.getD_append_right m T 0 i (by omega), hm, hij]
    congr 1
    omega
  unfold unpackHeader
  rw [if_pos hlen, htake, g 4 0 rfl, g 5 1 rfl, g 6 2 rfl, g 7 3 rfl, g 8 4 rfl,
    g 9 5 rfl, g 10 6 rfl, g 11 7 rfl, g 12 8 rfl, g 13 9 rfl, g 14 10 rfl,
    g 15 11 rfl, g 16 12 rfl, g 17 13 rfl, g 18 14 rfl, g 19 15 rfl]

/-- The buffer `sfoBuf2` with its magic replaced by invalid UTF-8. -/
def bufC8bad : List Nat := 255 :: 255 :: 255 :: 255 :: sfoBuf2.drop 4

/-- Claim C8 as stated is false: `bufC8bad` agrees with the well-formed
`sfoBuf2` on every byte past the magic, yet `decode` fails with
`InvalidEncoding` purely because its 4 magic bytes are not valid UTF-8
(line 169 decodes them for the synthetic signature entry). -/
theorem magic_can_fail_decode :
    bufC8bad.drop 4 = sfoBuf2.drop 4 ∧
    parse_sfo sfoBuf2 (strCp "TITLE") = .ok (some (.str (strCp "GAME TITLE"))) ∧
    parse_sfo_data bufC8bad = .error .invalidEncoding := by decide

/-- Claim C8, amended: the decoder never compares the magic against a
known constant — two buffers that agree past their first 4 bytes decode
identically apart from the synthetic signature entry, provided both magics
are valid UTF-8 (the decode of line 169 is the one way the magic's
contents can make `decode` fail). -/
theorem magic_content_independent (b₁ b₂ : List Nat)
    (h₁ : 4 ≤ b₁.length) (h₂ : 4 ≤ b₂.length) (hdrop : b₁.drop 4 = b₂.drop 4)
    (s₁ s₂ : List Nat)
    (hm₁ : utf8Dec (b₁.take 4) = some s₁) (hm₂ : utf8Dec (b₂.take 4) = some s₂) :
    Except.map (List.drop 1) (parse_sfo_data b₁) =
      Except.map (List.drop 1) (parse_sfo_data b₂) := by
  have hlen : b₁.length = b₂.length := by
    have hc := congrArg List.length hdrop
    simp only [List.length_drop] at hc
    omega
  by_cases h20 : b₁.length < 20
  · rw [parse_sfo_data_short b₁ h20, parse_sfo_data_short b₂ (by omega)]
  · push_neg at h20
    have hs₁ : b₁.take 20 = b₁.take 4 ++ (b₁.drop 4).take 16 := List.take_add b₁ 4 16
    have hs₂ : b₂.take 20 = b₂.take 4 ++ (b₂.drop 4).take 16 := List.take_add b₂ 4 16
    have hT : (b₂.drop 4).take 16 = (b₁.drop 4).take 16 := by rw [hdrop]
    have hTlen : ((b₁.drop 4).take 16).length = 16 := by
      simp only [List.length_take, List.length_drop]
      omega
    have hm₁l : (b₁.take 4).length = 4 := by
      simp only [List.length_take]
      omega
    have hm₂l : (b₂.take 4).length = 4 := by
      simp only [List.length_take]
      omega
    set T := (b₁.drop 4).take 16 with hTdef
    have hu₁ : unpackHeader (b₁.take 20) =
        .ok ⟨b₁.take 4, T.getD 0 0, T.getD 1 0, T.getD 2 0, T.getD 3 0,
          le32 (T.getD 4 0) (T.getD 5 0) (T.getD 6 0) (T.getD 7 0),
          le32 (T.getD 8 0) (T.getD 9 0) (T.getD 10 0) (T.getD 11 0),
          le32 (T.getD 12 0) (T.getD 13 0) (T.getD 14 0) (T.getD 15 0)⟩ := by
      rw [hs₁]
      exact unpackHeader_split _ _ hm₁l hTlen
    have hu₂ : unpackHeader (b₂.take 20) =
        .ok ⟨b₂.take 4, T.getD 0 0, T.getD 1 0, T.getD 2 0, T.getD 3 0,
          le32 (T.getD 4 0) (T.getD 5 0) (T.getD 6 0) (T.getD 7 0),
          le32 (T.getD 8 0) (T.getD 9 0) (T.getD 10 0) (T.getD 11 0),
          le32 (T.getD 12 0) (T.getD 13 0) (T.getD 14 0) (T.getD 15 0)⟩ := by
      rw [hs₂, hT]
      exact unpackHeader_split _ _ hm₂l hTlen
    have hd20 : b₁.drop 20 = b₂.drop 20 := by
      have e1 : b₁.drop 20 = (b₁.drop 4).drop 16 := (List.drop_drop 16 4 b₁).symm
      have e2 : b₂.drop 20 = (b₂.drop 4).drop 16 := (List.drop_drop 16 4 b₂).symm
      rw [e1, e2, hdrop]
    rw [parse_sfo_data_cons b₁ _ s₁ hu₁ hm₁, parse_sfo_data_cons b₂ _ s₂ hu₂ hm₂, hd20]
    cases parseBody
        (le32 (T.getD 4 0) (T.getD 5 0) (T.getD 6 0) (T.getD 7 0))
        (le32 (T.getD 8 0) (T.getD 9 0) (T.getD 10 0) (T.getD 11 0))
        (le32 (T.getD 12 0) (T.getD 13 0) (T.getD 14 0) (T.getD 15 0))
        (b₂.drop 20) with
    | error e => rfl
    | ok body => rfl

/-- `sfoBuf2` with a different (valid-UTF-8) magic, `"ABCD"`. -/
def bufC8alt : List Nat := 65 :: 66 :: 67 :: 68 :: sfoBuf2.drop 4

theorem magic_content_independent_witness :
    Except.map (List.drop 1) (parse_sfo_data bufC8alt) =
      Except.map (List.drop 1) (parse_sfo_data sfoBuf2) :=
  magic_content_independent bufC8alt sfoBuf2 (by decide) (by decide) (by decide)
    (strCp "ABCD") (strCp "\x00PSF") (by decide) (by decide)

/-- The name loop yields exactly one name per index record. -/
lemma readNames_ok_length (dt : List DefRec) (ntb : Int) (rem : List Nat)
    (ns : List (List Nat)) (rm : List Nat)
    (h : readNames dt ntb rem = .ok (ns, rm)) : ns.length = dt.length := by
  induction dt generalizing rem ns rm with
  | nil =>
    simp only [readNames] at h
    obtain ⟨h1, _⟩ := Prod.mk.inj (Except.ok.inj h)
    subst h1
    rfl
  | cons r t ih =>
    cases t with
    | nil =>
      simp only [readNames] at h
      cases hri : readI rem (ntb - (r.nameOffset : Int)) with
      | mk raw rem' =>
        rw [hri] at h
        cases hu : utf8Dec raw with
        | none => rw [hu] at h; exact Except.noConfusion h
        | some s =>
          rw [hu] at h
          obtain ⟨h1, _⟩ := Prod.mk.inj (Except.ok.inj h)
          subst h1
          rfl
    | cons r' t' =>
      simp only [readNames] at h
      cases hri : readI rem ((r'.nameOffset : Int) - (r.nameOffset : Int)) with
      | mk raw rem' =>
        rw [hri] at h
        cases hu : utf8Dec raw with
        | none => rw [hu] at h; exact Except.noConfusion h
        | some s =>
          rw [hu] at h
          cases hrec : readNames (r' :: t') ntb rem' with
          | error e => rw [hrec] at h; exact Except.noConfusion h
          | ok p =>
            obtain ⟨ns', rm'⟩ := p
            rw [hrec] at h
            obtain ⟨h1, _⟩ := Prod.mk.inj (Except.ok.inj h)
            subst h1
            simpa using ih rem' ns' rm' hrec

/-- The value loop yields exactly one value per index record. -/
lemma readValues_ok_length (dt : List DefRec) (rem : List Nat)
    (vs : List (Option SfoValue)) (rm : List Nat)
    (h : readValues dt rem = .ok (vs, rm)) : vs.length = dt.length := by
  induction dt generalizing rem vs rm with
  | nil =>
    simp only [readValues] at h
    obtain ⟨h1, _⟩ := Prod.mk.inj (Except.ok.inj h)
    subst h1
    rfl
  | cons r t ih =>
    simp only [readValues] at h
    cases hv : decodeValue r.valueType (rem.take r.valueCapacity) with
    | error e => rw [hv] at h; exact Except.noConfusion h
    | ok v =>
      rw [hv] at h
      cases hrest : readValues t (rem.drop r.valueCapacity) with
      | error e => rw [hrest] at h; exact Except.noConfusion h
      | ok p =>
        obtain ⟨vs', rm'⟩ := p
        rw [hrest] at h
        obtain ⟨h1, _⟩ := Prod.mk.inj (Except.ok.inj h)
        subst h1
        simpa using ih _ _ _ hrest

/-- A successful parse body yields one name and one value per entry. -/
lemma parseBody_ok (k d n : Nat) (rest : List Nat)
    (body : List (List Nat) × List (Option SfoValue))
    (h : parseBody k d n rest = .ok body) :
    body.1.length = n ∧ body.2.length = n := by
  simp only [parseBody] at h
  by_cases hp : ((k : Int) - 20 - ((16 * n : Nat) : Int) < 0)
  · rw [if_pos hp] at h
    exact Except.noConfusion h
  · rw [if_neg hp] at h
    cases hdt : readDefTable n rest with
    | error e => rw [hdt] at h; exact Except.noConfusion h
    | ok p =>
      obtain ⟨dt, rem₁⟩ := p
      rw [hdt] at h
      obtain ⟨hdl, _⟩ := readDefTable_ok _ _ _ _ hdt
      simp only [ok_bind, namesThenValues] at h
      cases hn : readNames dt ((d : Int) - (k : Int))
          (rem₁.drop ((k : Int) - 20 - ((16 * n : Nat) : Int)).toNat) with
      | error e => rw [hn] at h; exact Except.noConfusion h
      | ok pn =>
        obtain ⟨ns, rem₃⟩ := pn
        rw [hn] at h
        simp only [ok_bind] at h
        cases hv : readValues dt rem₃ with
        | error e => rw [hv] at h; exact Except.noConfusion h
        | ok pv =>
          obtain ⟨vs, rm⟩ := pv
          rw [hv] at h
          obtain ⟨h1, h2⟩ := Prod.mk.inj (Except.ok.inj h).symm
          rw [h1, h2]
          exact ⟨by rw [readNames_ok_length _ _ _ _ _ hn, hdl],
            by rw [readValues_ok_length _ _ _ _ hv, hdl]⟩

/-- Claim C9: every successful decode returns the two synthetic entries —
`"SFO File Signature"` (the magic bytes UTF-8-decoded) and
`"SFO File Version"` (the four version bytes joined with `"."`) — placed
before the `entry_count` file-derived parameters. -/
theorem synthetic_entries_prepended (buf : List Nat)
    (pairs : List (List Nat × Option SfoValue)) (h : parse_sfo_data buf = .ok pairs) :
    ∃ hd s rest, unpackHeader (buf.take 20) = .ok hd ∧ utf8Dec hd.magic = some s ∧
      pairs = (strCp "SFO File Signature", some (.str s)) ::
        (strCp "SFO File Version", some (.str (verStr hd))) :: rest ∧
      rest.length = hd.entryCount := by
  unfold parse_sfo_data at h
  cases hu : unpackHeader (buf.take 20) with
  | error e => rw [hu] at h; exact Except.noConfusion h
  | ok hd =>
    rw [hu] at h
    simp only [ok_bind] at h
    cases hm : utf8Dec hd.magic with
    | none =>
      rw [show decodeUtf8E hd.magic = .error .invalidEncoding from by
        unfold decodeUtf8E; rw [hm]] at h
      exact Except.noConfusion h
    | some s =>
      rw [decodeUtf8E_ok _ _ hm] at h
      simp only [ok_bind] at h
      cases hb : parseBody hd.keyTableOffset hd.dataTableOffset hd.entryCount (buf.drop 20) with
      | error e => rw [hb] at h; exact Except.noConfusion h
      | ok body =>
        rw [hb] at h
        obtain ⟨h1len, h2len⟩ := parseBody_ok _ _ _ _ _ hb
        refine ⟨hd, s, body.1.zip body.2, rfl, hm, ?_, ?_⟩
        · rw [(Except.ok.inj h).symm]
          rfl
        · rw [List.length_zip, h1len, h2len]
          exact Nat.min_self _

theorem synthetic_entries_prepended_witness :
    ∃ hd s rest, unpackHeader (sfoBuf2.take 20) = .ok hd ∧ utf8Dec hd.magic = some s ∧
      [(strCp "SFO File Signature", some (SfoValue.str (strCp "\x00PSF"))),
       (strCp "SFO File Version", some (.str (strCp "1.1.0.0"))),
       (strCp "TITLE", some (.str (strCp "GAME TITLE"))),
       (strCp "CATEGORY", some (.str (strCp "UCES")))] =
        (strCp "SFO File Signature", some (.str s)) ::
          (strCp "SFO File Version", some (.str (verStr hd))) :: rest ∧
      rest.length = hd.entryCount :=
  synthetic_entries_prepended sfoBuf2 _ (by decide)

/-- Claim C10 as stated is false: `"SFO File Version"` does not occur in
`sfoBuf2`'s index table (whose names are `"TITLE"` and `"CATEGORY"`), yet
`parse_sfo` returns the version string for it, not the absent value — the
synthetic entries make "not in the index table" and "absent" differ. -/
theorem version_lookup_not_absent :
    readNames [⟨0, 0x0204, 11, 11, 0⟩, ⟨6, 0x0204, 5, 5, 16⟩] 15 (sfoBuf2.drop 52) =
      .ok ([strCp "TITLE", strCp "CATEGORY"], sfoBuf2.drop 67) ∧
    (strCp "SFO File Version") ∉ [strCp "TITLE", strCp "CATEGORY"] ∧
    parse_sfo sfoBuf2 (strCp "SFO File Version") = .ok (some (.str (strCp "1.1.0.0"))) ∧
    (Except.ok (some (SfoValue.str (strCp "1.1.0.0"))) : Except PyErr (Option SfoValue)) ≠
      .ok none := by decide

/-- Claim C10, amended: on any successfully decoded buffer the lookup
returns the absent value (`None`) both for a name that occurs in no entry
of the decoded mapping (index-table or synthetic) and for a name whose
retained occurrence — the last one, since `dict` keeps the last value for
a duplicated key — stores the null payload, as unknown-typed index entries
do; the two cases are indistinguishable to the caller. -/
theorem lookup_absent_or_null_none (buf : List Nat)
    (pairs : List (List Nat × Option SfoValue)) (p : List Nat)
    (h : parse_sfo_data buf = .ok pairs) :
    ((∀ q ∈ pairs, q.1 ≠ p) → parse_sfo buf p = .ok none) ∧
    (∀ l₁ l₂, pairs = l₁ ++ (p, (none : Option SfoValue)) :: l₂ →
      (∀ q ∈ l₂, q.1 ≠ p) → parse_sfo buf p = .ok none) := by
  have hps : parse_sfo buf p = .ok (dictGet pairs p) := by
    unfold parse_sfo
    rw [h]
    rfl
  constructor
  · intro hab
    rw [hps]
    unfold dictGet
    have hfind : pairs.reverse.find? (fun q => q.1 == p) = none := by
      rw [List.find?_eq_none]
      intro q hq hc
      exact hab q (List.mem_reverse.mp hq) (by simpa using hc)
    rw [hfind]
  · intro l₁ l₂ hsplit hlast
    rw [hps]
    unfold dictGet
    have h2 : l₂.reverse.find? (fun q => q.1 == p) = none := by
      rw [List.find?_eq_none]
      intro q hq hc
      exact hlast q (List.mem_reverse.mp hq) (by simpa using hc)
    have hfind : pairs.reverse.find? (fun q => q.1 == p) =
        some (p, (none : Option SfoValue)) := by
      rw [hsplit, List.reverse_append, List.reverse_cons, List.find?_append,
        List.find?_append, h2]
      simp
    rw [hfind]

/-- A 68-byte buffer with two index entries: `"TITLE"` of string type
`0x0204` with value `"X"`, and `"WEIRD"` with the unrecognized type
`0xFFFF` (so its stored value is `None`). -/
def bufC10 : List Nat :=
  [0, 80, 83, 70,
   1, 0, 0, 0,
   52, 0, 0, 0,
   64, 0, 0, 0,
   2, 0, 0, 0,
   -- record 0: name_offset 0, type 0x0204, len 2, capacity 2, offset 0
   0, 0, 4, 2, 2, 0, 0, 0, 2, 0, 0, 0, 0, 0, 0, 0,
   -- record 1: name_offset 6, type 0xFFFF, len 2, capacity 2, offset 2
   6, 0, 255, 255, 2, 0, 0, 0, 2, 0, 0, 0, 2, 0, 0, 0,
   -- name blob: "TITLE\x00" ++ "WEIRD\x00"
   84, 73, 84, 76, 69, 0,
   87, 69, 73, 82, 68, 0,
   -- value blob: "X\x00" ++ two opaque bytes for the unknown-typed entry
   88, 0,
   1, 2]

theorem lookup_absent_or_null_none_witness :
    parse_sfo bufC10 (strCp "MISSING") = .ok none ∧
    parse_sfo bufC10 (strCp "WEIRD") = .ok none := by
  have h : parse_sfo_data bufC10 = .ok
      [(strCp "SFO File Signature", some (.str (strCp "\x00PSF"))),
       (strCp "SFO File Version", some (.str (strCp "1.0.0.0"))),
       (strCp "TITLE", some (.str (strCp "X"))),
       (strCp "WEIRD", none)] := by decide
  refine ⟨(lookup_absent_or_null_none bufC10 _ (strCp "MISSING") h).1 (by decide), ?_⟩
  exact (lookup_absent_or_null_none bufC10 _ (strCp "WEIRD") h).2
    [(strCp "SFO File Signature", some (.str (strCp "\x00PSF"))),
     (strCp "SFO File Version", some (.str (strCp "1.0.0.0"))),
     (strCp "TITLE", some (.str (strCp "X")))] [] (by decide) (by decide)

end PspSfo

